import Mathlib

/-!
Verification development for the saveli save-relocation tool.

The Rust sources (src/game.rs, src/database.rs, src/linker.rs,
src/settings.rs, src/errors.rs, src/main.rs) are shallowly embedded below.
Filesystem state is a finite association list from paths to nodes (file,
directory or symbolic link); the OS primitives used by the program
(symlink, rename, remove_dir, create_dir_all, lstat/stat, read_link) are
modelled over that state.  Machine strings are Lean `String`s compared
codepoint-wise, matching the byte-wise `Ord` of Rust `String` on the
ASCII data the program handles.
-/

set_option maxRecDepth 4000

deriving instance DecidableEq for Except

/-! ### String ordering (Rust `String: Ord`, lexicographic) -/

/-- Lexicographic strict order on character lists, by codepoint.  Mirrors the
byte-wise `Ord` of Rust strings (identical on ASCII). -/
def charsLt : List Char → List Char → Bool
  | [], [] => false
  | [], _ :: _ => true
  | _ :: _, [] => false
  | a :: as, b :: bs =>
    if a.toNat < b.toNat then true
    else if b.toNat < a.toNat then false
    else charsLt as bs

/-- Strict order on strings, mirroring Rust `str::cmp` being `Less`. -/
def strLt (a b : String) : Bool := charsLt a.data b.data

/-- Rust `str::trim`: strip whitespace from both ends. -/
def strTrim (s : String) : String :=
  String.mk (((s.data.dropWhile Char.isWhitespace).reverse.dropWhile
    Char.isWhitespace).reverse)

/-! ### Paths

Rust `PathBuf` is embedded as an absolute-flag plus a list of components. -/

structure SPath where
  absolute : Bool
  comps : List String
  deriving DecidableEq, Repr

/-- Splitting helper for `PathBuf::from`: split on the separator. -/
def splitSlashAux : List Char → List Char → List String
  | [], acc => [String.mk acc.reverse]
  | c :: cs, acc =>
    if c = '/' then String.mk acc.reverse :: splitSlashAux cs []
    else splitSlashAux cs (c :: acc)

/-- `PathBuf::from(s)`: absolute iff the string starts with the separator,
components are the non-empty segments. -/
def pathBufFrom (s : String) : SPath :=
  { absolute :=
      match s.data with
      | '/' :: _ => true
      | _ => false,
    comps := (splitSlashAux s.data []).filter (fun c => !(c == "")) }

/-- `Path::join` with a single plain name (the program only joins game and
save ids).  Joining the empty string yields a trailing separator, which
resolves to the same location, so it is the identity here. -/
def SPath.join (p : SPath) (name : String) : SPath :=
  if name = "" then p else ⟨p.absolute, p.comps ++ [name]⟩

/-! ### Filesystem model -/

inductive Node where
  | file (data : String)
  | dir
  | symlink (target : SPath)
  deriving DecidableEq, Repr

/-- A filesystem: finite association list from paths to nodes; the first
binding for a path is the authoritative one. -/
abbrev FS := List (SPath × Node)

/-- Whole-machine state seen by the program: the filesystem plus whether the
process has the privilege to create links. -/
structure World where
  fs : FS
  canLink : Bool
  deriving DecidableEq, Repr

/-- `lstat`-style lookup: the node stored at a path, not following links. -/
def lookupFS : FS → SPath → Option Node
  | [], _ => none
  | e :: fs, p => if e.1 = p then some e.2 else lookupFS fs p

def fsRemove : FS → SPath → FS
  | [], _ => []
  | e :: fs, p => if e.1 = p then fsRemove fs p else e :: fsRemove fs p

def fsInsert (fs : FS) (p : SPath) (n : Node) : FS := (p, n) :: fsRemove fs p

/-- `p` is the same as or an ancestor-or-self position of `q`. -/
def sameOrBelow (p q : SPath) : Bool :=
  p.absolute == q.absolute && p.comps.isPrefixOf q.comps

/-- `p` is a strict ancestor position of `q`. -/
def strictlyBelow (p q : SPath) : Bool :=
  sameOrBelow p q && !(p.comps == q.comps)

def rebasePath (src dst q : SPath) : SPath :=
  ⟨dst.absolute, dst.comps ++ q.comps.drop src.comps.length⟩

def hasChild : FS → SPath → Bool
  | [], _ => false
  | e :: fs, p => strictlyBelow p e.1 || hasChild fs p

/-- Resolve a path, following symbolic links at the final component, with
fuel bounding chain length. -/
def resolveNode (fs : FS) : Nat → SPath → Option Node
  | 0, _ => none
  | n + 1, p =>
    match lookupFS fs p with
    | some (.symlink t) => resolveNode fs n t
    | some nd => some nd
    | none => none

/-- `stat`-style lookup (follows links). -/
def statFollow (fs : FS) (p : SPath) : Option Node :=
  resolveNode fs (fs.length + 1) p

/-- Rust `Path::exists` (follows links). -/
def pathExists (fs : FS) (p : SPath) : Bool := (statFollow fs p).isSome

/-- Rust `Path::is_dir` (follows links). -/
def isDirFollow (fs : FS) (p : SPath) : Bool :=
  match statFollow fs p with
  | some .dir => true
  | _ => false

/-- `std::fs::read_link`. -/
def readLink (fs : FS) (p : SPath) : Option SPath :=
  match lookupFS fs p with
  | some (.symlink t) => some t
  | _ => none

def isSymlinkNode : Node → Bool
  | .symlink _ => true
  | _ => false

/-! ### Errors (src/errors.rs)

The `error_chain!` kinds actually used by the embedded code, plus the raw
io error kinds the code inspects, plus the ad-hoc `bail!` message for a
relative expanded path. -/

inductive IOEK where
  | notFound
  | alreadyExists
  | notADirectory
  | notEmpty
  deriving DecidableEq, Repr

inductive LError where
  | databaseTooNew (version supported : Nat)
  | linkPermission
  | destinationDoesNotExist (p : SPath)
  | destinationExists (p : SPath)
  | sourceExists (p : SPath)
  | sourceNotFound (p : SPath)
  | alreadyLinked (target : SPath)
  | failedToMove (src dst : SPath)
  | relativePath (s : String)
  | io (k : IOEK)
  deriving DecidableEq, Repr

/-! ### OS primitives used by the program -/

/-- `std::fs::remove_dir`.  Removes an empty directory.  Windows
`RemoveDirectory` also removes a directory symbolic link (reparse point)
without following it, which is the platform the program targets; a file
gives `NotADirectory`, a missing path `NotFound`, a non-empty directory
`NotEmpty`. -/
def removeDir (fs : FS) (p : SPath) : Except LError FS :=
  match lookupFS fs p with
  | none => .error (.io .notFound)
  | some (.file _) => .error (.io .notADirectory)
  | some (.symlink _) => .ok (fsRemove fs p)
  | some .dir =>
    if hasChild fs p then .error (.io .notEmpty) else .ok (fsRemove fs p)

/-- `std::fs::rename`, simplified: moves the tree rooted at `src` to `dst`.
Replacing an existing destination is not modelled and reports
`AlreadyExists` instead, which only makes `move_item` take its copy
fallback. -/
def renameFS (fs : FS) (src dst : SPath) : Except LError FS :=
  if (lookupFS fs src).isNone then .error (.io .notFound)
  else if (lookupFS fs dst).isSome then .error (.io .alreadyExists)
  else .ok (fs.map (fun e =>
    if sameOrBelow src e.1 then (rebasePath src dst e.1, e.2) else e))

/-- The copy-then-delete performed by the `fs_extra` fallbacks of
`move_item`, modelled atomically. -/
def copyDelete (fs : FS) (src dst : SPath) : Except LError FS :=
  if (lookupFS fs src).isNone then .error (.failedToMove src dst)
  else if (lookupFS fs dst).isSome then .error (.failedToMove src dst)
  else .ok (fs.map (fun e =>
    if sameOrBelow src e.1 then (rebasePath src dst e.1, e.2) else e))

/-- `std::fs::create_dir_all`: create every missing directory along the
path; a non-directory in the way is `NotADirectory`. -/
def createDirAll (fs : FS) (p : SPath) : Except LError FS :=
  (List.range p.comps.length).foldlM
    (fun acc i =>
      let q : SPath := ⟨p.absolute, p.comps.take (i + 1)⟩
      match lookupFS acc q with
      | some .dir => .ok acc
      | some _ => .error (.io .notADirectory)
      | none => .ok (fsInsert acc q .dir))
    fs

/-! ### Linker (src/linker.rs) -/

namespace Linker

/-- The platform `symlink` call (`std::os::unix::fs::symlink` /
`CreateSymbolicLinkW`): creates a link at `src` pointing to `tgt`; fails
with `AlreadyExists` if anything is at `src` (not following links). -/
def osSymlink (fs : FS) (src tgt : SPath) : Except LError FS :=
  if (lookupFS fs src).isSome then .error (.io .alreadyExists)
  else .ok (fsInsert fs src (.symlink tgt))

/-- `Linker::symlink` from src/linker.rs lines 23-49. -/
def symlink (fs : FS) (src tgt : SPath) : Except LError FS :=
  if pathExists fs tgt = false then .error (.destinationDoesNotExist tgt)
  else
    match osSymlink fs src tgt with
    | .ok fs1 => .ok fs1
    | .error e =>
      match lookupFS fs src with
      | some (.symlink target) =>
        if target = tgt then .ok fs else .error (.alreadyLinked target)
      | some .dir => .error (.sourceExists src)
      | some (.file _) => .error (.sourceExists src)
      | none => .error e

/-- `Linker::move_item` from src/linker.rs lines 66-83: try a rename, fall
back to copy-then-delete, wrapping fallback failures as `FailedToMove`. -/
def moveItem (fs : FS) (src dst : SPath) : Except LError FS :=
  match renameFS fs src dst with
  | .ok fs1 => .ok fs1
  | .error _ =>
    if isDirFollow fs src then
      match copyDelete fs src dst with
      | .ok fs1 => .ok fs1
      | .error _ => .error (.failedToMove src dst)
    else
      match copyDelete fs src dst with
      | .ok fs1 => .ok fs1
      | .error _ => .error (.failedToMove src dst)

/-- `Linker::move_and_link` from src/linker.rs lines 87-106.  Returns the
outcome together with the filesystem as left behind (a failure after the
move keeps the moved state). -/
def moveAndLink (fs : FS) (src dst : SPath) : Except LError Unit × FS :=
  if pathExists fs src = false then (.error (.sourceNotFound src), fs)
  else if pathExists fs dst then
    match readLink fs src with
    | some target =>
      if dst = target then (.ok (), fs) else (.error (.alreadyLinked target), fs)
    | none => (.error (.destinationExists dst), fs)
  else
    match moveItem fs src dst with
    | .error e => (.error e, fs)
    | .ok fs1 =>
      match symlink fs1 src dst with
      | .error e => (.error e, fs1)
      | .ok fs2 => (.ok (), fs2)

/-- Modelled from the spec: `verify_reparse_privilege` is called by
`Game::link/restore/unlink` but its definition is not in the sources under
src/ (only the Windows-only `check_reparse_privilege` is).  Per the spec it
performs a throwaway link creation in temporary paths solely to detect
whether the process may create links, leaving no net state change; it is
embedded as a pure pass/fail capability check. -/
def verifyReparsePrivilege (w : World) : Except LError Unit :=
  if w.canLink then .ok () else .error .linkPermission

end Linker

/-! ### Environment expansion (shellexpand::env, src/game.rs set_path) -/

def isVarStart (c : Char) : Bool := c.isAlpha || c = '_'
def isVarChar (c : Char) : Bool := c.isAlphanum || c = '_'

/-- One pass of `shellexpand::env` over the characters: `$NAME` and
`$\x7bNAME\x7d` are substituted from the environment; a lookup failure (an
undefined variable) or an unclosed brace makes the whole expansion fail
(`shellexpand::env` returns `Err` in those cases). -/
def expandVarsAux (env : String → Option String) :
    Nat → List Char → Option (List Char)
  | 0, _ => none
  | _ + 1, [] => some []
  | fuel + 1, c :: cs =>
    if c = '$' then
      match cs with
      | '\x7b' :: r2 =>
        let name := r2.takeWhile (fun d => !(d == '\x7d'))
        let rest := r2.dropWhile (fun d => !(d == '\x7d'))
        (match rest with
        | '\x7d' :: r3 =>
          match env (String.mk name) with
          | some v => (expandVarsAux env fuel r3).map (fun t => v.data ++ t)
          | none => none
        | _ => none)
      | d :: _ =>
        if isVarStart d then
          let name := cs.takeWhile isVarChar
          let rest := cs.dropWhile isVarChar
          match env (String.mk name) with
          | some v => (expandVarsAux env fuel rest).map (fun t => v.data ++ t)
          | none => none
        else (expandVarsAux env fuel cs).map (fun t => c :: t)
      | [] => some [c]
    else (expandVarsAux env fuel cs).map (fun t => c :: t)

/-- `shellexpand::env`, parameterised by the process environment. -/
def shellexpandEnv (env : String → Option String) (s : String) :
    Option String :=
  (expandVarsAux env (s.data.length + 1) s.data).map String.mk

/-! ### SavePath and Game (src/game.rs) -/

structure SavePath where
  id : String
  path : String
  expanded : SPath
  deriving DecidableEq, Repr

/-- `SavePath::set_path` from src/game.rs lines 36-50: trim, expand
environment variables (an expansion failure falls back to the empty string
via `unwrap_or_default`), and reject a relative result.  The warning about
a path not starting with `$` is a print with no state effect. -/
def SavePath.setPath (env : String → Option String) (sp : SavePath)
    (p : String) : Except LError SavePath :=
  let trimmed := strTrim p
  let expandedStr := (shellexpandEnv env trimmed).getD ""
  let expanded := pathBufFrom expandedStr
  if expanded.absolute = false then .error (.relativePath expandedStr)
  else .ok { sp with path := trimmed, expanded := expanded }

/-- `SavePath::update_path`: recompute `expanded` from the stored template. -/
def SavePath.updatePath (env : String → Option String) (sp : SavePath) :
    Except LError SavePath :=
  SavePath.setPath env sp sp.path

structure Game where
  title : String
  id : String
  custom : Bool
  saves : List SavePath
  deriving DecidableEq, Repr

/-- `impl Ord for Game` from src/game.rs lines 73-87. -/
def Game.cmp (a b : Game) : Ordering :=
  if strLt a.id b.id then .lt
  else if strLt b.id a.id then .gt
  else if a.custom && !b.custom then .lt
  else if !a.custom && b.custom then .gt
  else if strLt a.title b.title then .lt
  else if strLt b.title a.title then .gt
  else .eq

/-- `a` sorts no later than `b` under the `Game` order. -/
def gameLe (a b : Game) : Prop := Game.cmp a b ≠ .gt

instance : DecidableRel gameLe := fun a b => by
  unfold gameLe; infer_instance

/-- Sequential effectful map with early error return, as a Rust
`for`-loop over `?`-propagating calls. -/
def mapMExcept (f : α → Except LError β) : List α → Except LError (List β)
  | [] => .ok []
  | a :: as =>
    match f a with
    | .error e => .error e
    | .ok b =>
      match mapMExcept f as with
      | .error e => .error e
      | .ok bs => .ok (b :: bs)

/-- Re-expand every save path of a game (`save.update_path()?` loop of
`Database::load`). -/
def Game.expand (env : String → Option String) (g : Game) :
    Except LError Game :=
  match mapMExcept (SavePath.updatePath env) g.saves with
  | .error e => .error e
  | .ok saves => .ok { g with saves := saves }

/-! ### Database (src/database.rs) -/

/-- `const VERSION: usize = 1` of src/database.rs. -/
def dbVERSION : Nat := 1

/-- `Vec::sort` is a stable sort by `Ord`; embedded as the stable
insertion sort. -/
def sortGames (games : List Game) : List Game :=
  List.insertionSort gameLe games

/-- `Vec::dedup` keeps the first of each run of consecutive
`PartialEq`-equal (same-id) elements; `dedupFrom x l` scans `l` with `x`
the last kept element. -/
def dedupFrom (x : Game) : List Game → List Game
  | [] => []
  | y :: r => if x.id = y.id then dedupFrom x r else y :: dedupFrom y r

def dedupGames : List Game → List Game
  | [] => []
  | x :: r => x :: dedupFrom x r

structure Database where
  version : Nat
  games : List Game
  deriving DecidableEq, Repr

/-- `Database::load` from src/database.rs lines 51-70, after JSON parsing:
reject a too-new version, sort, dedup, then expand every save path (an
expansion failure fails the whole load). -/
def Database.load (version : Nat) (games : List Game)
    (env : String → Option String) : Except LError Database :=
  if version > dbVERSION then .error (.databaseTooNew version dbVERSION)
  else
    match mapMExcept (Game.expand env) (dedupGames (sortGames games)) with
    | .error e => .error e
    | .ok expanded => .ok { version := version, games := expanded }

/-! ### Settings (src/settings.rs) -/

structure Settings where
  storagePath : SPath
  dryRun : Bool
  ignored : List String
  deriving DecidableEq, Repr

def Settings.gameIsIgnored (s : Settings) (id : String) : Bool :=
  s.ignored.contains id

/-! ### Game bulk operations (src/game.rs lines 98-266) -/

namespace Game

/-- `Game::has_movable_saves`: some save whose resolved location has
`symlink_metadata` and is not itself a link. -/
def hasMovableSaves (fs : FS) (g : Game) : Bool :=
  g.saves.any (fun s =>
    match lookupFS fs s.expanded with
    | some md => !(isSymlinkNode md)
    | none => false)

def allWithMovableSaves (fs : FS) (games : List Game) : List Game :=
  games.filter (hasMovableSaves fs)

/-- `Game::all_with_moved_saves`: non-empty id and an existing per-game
subdirectory under the storage path. -/
def allWithMovedSaves (games : List Game) (storagePath : SPath) (fs : FS) :
    List Game :=
  (games.filter (fun g => !(g.id == ""))).filter
    (fun g => pathExists fs (storagePath.join g.id))

/-- The `create_dir_all` call of `Game::link`, tolerating `AlreadyExists`. -/
def createDirAllChecked (fs : FS) (p : SPath) : Except LError FS :=
  match createDirAll fs p with
  | .ok fs1 => .ok fs1
  | .error e => if e = .io .alreadyExists then .ok fs else .error e

/-- The per-save loop of `Game::link`: move the save to storage then link
back, stopping at the first failure (`?`), printing only when dry. -/
def linkSaves (dryRun : Bool) (gsp : SPath) :
    List SavePath → World → Except LError Unit × World
  | [], w => (.ok (), w)
  | s :: rest, w =>
    let dest := gsp.join s.id
    if dryRun then linkSaves dryRun gsp rest w
    else
      match Linker.moveItem w.fs s.expanded dest with
      | .error e => (.error e, w)
      | .ok fs1 =>
        match Linker.symlink fs1 s.expanded dest with
        | .error e => (.error e, { w with fs := fs1 })
        | .ok fs2 => linkSaves dryRun gsp rest { w with fs := fs2 }

/-- `Game::link` from src/game.rs lines 165-199. -/
def link (g : Game) (storagePath : SPath) (dryRun : Bool) (w : World) :
    Except LError Unit × World :=
  let gsp := storagePath.join g.id
  if dryRun then linkSaves true gsp g.saves w
  else
    match Linker.verifyReparsePrivilege w with
    | .error e => (.error e, w)
    | .ok _ =>
      match createDirAllChecked w.fs gsp with
      | .error e => (.error e, w)
      | .ok fs1 => linkSaves false gsp g.saves { w with fs := fs1 }

/-- The per-save loop of `Game::restore`. -/
def restoreSaves (dryRun : Bool) (g : Game) (storagePath : SPath) :
    List SavePath → World → Except LError Unit × World
  | [], w => (.ok (), w)
  | s :: rest, w =>
    let dest := (storagePath.join g.id).join s.id
    if dryRun then restoreSaves dryRun g storagePath rest w
    else
      match Linker.symlink w.fs s.expanded dest with
      | .error e => (.error e, w)
      | .ok fs1 => restoreSaves dryRun g storagePath rest { w with fs := fs1 }

/-- `Game::restore` from src/game.rs lines 203-223. -/
def restore (g : Game) (storagePath : SPath) (dryRun : Bool) (w : World) :
    Except LError Unit × World :=
  if dryRun then restoreSaves true g storagePath g.saves w
  else
    match Linker.verifyReparsePrivilege w with
    | .error e => (.error e, w)
    | .ok _ => restoreSaves false g storagePath g.saves w

/-- The per-save loop of `Game::unlink`.  Note the source removes
`&s.path` — the raw template string made into a path — not the resolved
`s.expanded` (src/game.rs line 243). -/
def unlinkSaves (dryRun : Bool) (g : Game) (storagePath : SPath) :
    List SavePath → World → Except LError Unit × World
  | [], w => (.ok (), w)
  | s :: rest, w =>
    let dest := (storagePath.join g.id).join s.id
    if dryRun then unlinkSaves dryRun g storagePath rest w
    else
      match removeDir w.fs (pathBufFrom s.path) with
      | .error e => (.error e, w)
      | .ok fs1 =>
        match Linker.moveItem fs1 dest s.expanded with
        | .error e => (.error e, { w with fs := fs1 })
        | .ok fs2 => unlinkSaves dryRun g storagePath rest { w with fs := fs2 }

/-- `Game::unlink` from src/game.rs lines 226-256. -/
def unlink (g : Game) (storagePath : SPath) (dryRun : Bool) (w : World) :
    Except LError Unit × World :=
  if dryRun then
    match unlinkSaves true g storagePath g.saves w with
    | (.error e, w1) => (.error e, w1)
    | (.ok _, w1) => (.ok (), w1)
  else
    match Linker.verifyReparsePrivilege w with
    | .error e => (.error e, w)
    | .ok _ =>
      match unlinkSaves false g storagePath g.saves w with
      | (.error e, w1) => (.error e, w1)
      | (.ok _, w1) =>
        match removeDir w1.fs (storagePath.join g.id) with
        | .error e => (.error e, w1)
        | .ok fs2 => (.ok (), { w1 with fs := fs2 })

/-- The shared loop of `link_all`/`restore_all`/`unlink_all`: skip ignored
games, print (and continue) on a per-game failure. -/
def runList (op : Game → SPath → Bool → World → Except LError Unit × World)
    (s : Settings) : List Game → World → World
  | [], w => w
  | g :: rest, w =>
    if s.gameIsIgnored g.id then runList op s rest w
    else runList op s rest (op g s.storagePath s.dryRun w).2

/-- `Game::link_all` from src/game.rs lines 98-114: always returns `Ok`. -/
def linkAll (db : Database) (s : Settings) (w : World) :
    Except LError Unit × World :=
  (.ok (), runList link s (allWithMovableSaves w.fs db.games) w)

/-- `Game::restore_all` from src/game.rs lines 116-133. -/
def restoreAll (db : Database) (s : Settings) (w : World) :
    Except LError Unit × World :=
  (.ok (), runList restore s (allWithMovedSaves db.games s.storagePath w.fs) w)

/-- `Game::unlink_all` from src/game.rs lines 135-148. -/
def unlinkAll (db : Database) (s : Settings) (w : World) :
    Except LError Unit × World :=
  (.ok (), runList unlink s (allWithMovedSaves db.games s.storagePath w.fs) w)

end Game

/-! ### Concrete fixtures

A catalog entry `g` with one save descriptor whose template is
`$TESTVAR/save`; with `TESTVAR` defined as the empty string it expands to
the absolute path `/save`.  The world holds a real save directory at
`/save` containing one file, and the storage root `/storage`. -/

def envFix : String → Option String :=
  fun v => if v = "TESTVAR" then some "" else none

def spFix : SavePath := ⟨"s1", "$TESTVAR/save", ⟨true, ["save"]⟩⟩

def gFix : Game := ⟨"G", "g", false, [spFix]⟩

def dbFix : Database := ⟨1, [gFix]⟩

def sFix : Settings := ⟨⟨true, ["storage"]⟩, false, []⟩

def w0Fix : World :=
  ⟨[(⟨true, ["save"]⟩, .dir), (⟨true, ["save", "data"]⟩, .file "d"),
    (⟨true, ["storage"]⟩, .dir)], true⟩

/-- The world after `link_all` on the fixture: the save data lives under
the storage root and the original location holds a link to it. -/
def w1Fix : World :=
  ⟨[(⟨true, ["save"]⟩, .symlink ⟨true, ["storage", "g", "s1"]⟩),
    (⟨true, ["storage", "g"]⟩, .dir),
    (⟨true, ["storage", "g", "s1"]⟩, .dir),
    (⟨true, ["storage", "g", "s1", "data"]⟩, .file "d"),
    (⟨true, ["storage"]⟩, .dir)], true⟩

/-- Claim C1: the link/unlink round trip does not restore the original
state on this code.  After `link_all` relocates the fixture save,
`unlink_all` leaves the world exactly as it was after linking: `unlink`
calls `remove_dir` on the raw template string `$TESTVAR/save` instead of
the resolved location `/save`, which fails with `NotFound`, the per-entry
error is swallowed, and the link and the per-entry storage subdirectory
both remain. -/
theorem linkAll_unlinkAll_no_roundtrip :
    (Game.linkAll dbFix sFix w0Fix).2 = w1Fix ∧
    Game.unlinkAll dbFix sFix w1Fix = (.ok (), w1Fix) ∧
    lookupFS w1Fix.fs ⟨true, ["save"]⟩
      = some (.symlink ⟨true, ["storage", "g", "s1"]⟩) ∧
    lookupFS w1Fix.fs ⟨true, ["storage", "g"]⟩ = some .dir := by
  refine ⟨by decide, by decide, by decide, by decide⟩

/-- Claim C5: `Game::unlink` does not remove the link at the resolved
original location.  The fixture descriptor comes out of `set_path` with
resolved location `/save`, but `unlink` removes at the raw template
`$TESTVAR/save` (a relative path that exists nowhere), so it fails with
`NotFound` and leaves the world untouched, never reaching the move-back or
the storage-subdirectory removal. -/
theorem unlink_removes_raw_template_path :
    SavePath.setPath envFix ⟨"s1", "", ⟨false, []⟩⟩ "$TESTVAR/save"
      = .ok spFix ∧
    pathBufFrom spFix.path = ⟨false, ["$TESTVAR", "save"]⟩ ∧
    lookupFS w1Fix.fs (pathBufFrom spFix.path) = none ∧
    Game.unlink gFix ⟨true, ["storage"]⟩ false w1Fix
      = (.error (.io .notFound), w1Fix) := by
  refine ⟨by decide, by decide, by decide, by decide⟩

/-- Claim C6 (counterexample): resolving the template `$TESTVAR/save` with
`TESTVAR` undefined does not yield the accepted absolute path `/save`;
`shellexpand::env` fails on the undefined variable, `unwrap_or_default`
turns the whole expansion into the empty string, and the empty path is
rejected as relative. -/
theorem setPath_undefined_var_cex :
    SavePath.setPath (fun _ => none) ⟨"s1", "", ⟨false, []⟩⟩ "$TESTVAR/save"
      = .error (.relativePath "") := by
  decide

/-- Claim C6 (amended): environment substitution uses shell-style `$NAME`
and `$\x7bNAME\x7d` syntax, but an undefined variable fails the whole
expansion, which then falls back to the empty string and is rejected as a
relative path.  The template `$TESTVAR/save` is rejected when `TESTVAR` is
unset, while a defined-but-empty `TESTVAR` yields the accepted absolute
path `/save`, and the braced form substitutes a non-empty value. -/
theorem setPath_expansion_behaviour :
    SavePath.setPath (fun _ => none) ⟨"s1", "", ⟨false, []⟩⟩ "$TESTVAR/save"
      = .error (.relativePath "") ∧
    SavePath.setPath (fun v => if v = "TESTVAR" then some "" else none)
        ⟨"s1", "", ⟨false, []⟩⟩ "$TESTVAR/save"
      = .ok ⟨"s1", "$TESTVAR/save", ⟨true, ["save"]⟩⟩ ∧
    SavePath.setPath (fun v => if v = "TESTVAR" then some "/x" else none)
        ⟨"s1", "", ⟨false, []⟩⟩ "$\x7bTESTVAR\x7d/save"
      = .ok ⟨"s1", "$\x7bTESTVAR\x7d/save", ⟨true, ["x", "save"]⟩⟩ := by
  refine ⟨by decide, by decide, by decide⟩

/-- Claim C3 (counterexample): a catalog at the supported version can
still fail to load — a save template expanding to a relative path fails
the whole load with a relative-path error, so version ≤ supported does not
imply success. -/
theorem load_supported_version_can_fail :
    1 ≤ dbVERSION ∧
    Database.load 1 [⟨"t", "a", false, [⟨"s1", "relative", ⟨false, []⟩⟩]⟩]
        (fun _ => none)
      = .error (.relativePath "relative") := by
  refine ⟨by decide, by decide⟩

/-- Claim C8 (counterexample): `move_and_link(p, p)` on an existing path
`p` does not always fail with "destination already exists": when `p` is a
symbolic link to an existing target `t`, it fails with `AlreadyLinked t`
instead. -/
theorem moveAndLink_self_symlink_cex :
    pathExists [(⟨true, ["p"]⟩, Node.symlink ⟨true, ["t"]⟩),
        (⟨true, ["t"]⟩, Node.dir)] ⟨true, ["p"]⟩ = true ∧
    Linker.moveAndLink [(⟨true, ["p"]⟩, Node.symlink ⟨true, ["t"]⟩),
        (⟨true, ["t"]⟩, Node.dir)] ⟨true, ["p"]⟩ ⟨true, ["p"]⟩
      = (.error (.alreadyLinked ⟨true, ["t"]⟩),
         [(⟨true, ["p"]⟩, Node.symlink ⟨true, ["t"]⟩),
          (⟨true, ["t"]⟩, Node.dir)]) := by
  refine ⟨by decide, by decide⟩

/-! ### Dry-run and bulk-loop lemmas -/

theorem linkSaves_dry (gsp : SPath) (saves : List SavePath) (w : World) :
    Game.linkSaves true gsp saves w = (.ok (), w) := by
  induction saves with
  | nil => rfl
  | cons s rest ih => simpa [Game.linkSaves] using ih

theorem restoreSaves_dry (g : Game) (sp : SPath) (saves : List SavePath)
    (w : World) : Game.restoreSaves true g sp saves w = (.ok (), w) := by
  induction saves with
  | nil => rfl
  | cons s rest ih => simpa [Game.restoreSaves] using ih

theorem unlinkSaves_dry (g : Game) (sp : SPath) (saves : List SavePath)
    (w : World) : Game.unlinkSaves true g sp saves w = (.ok (), w) := by
  induction saves with
  | nil => rfl
  | cons s rest ih => simpa [Game.unlinkSaves] using ih

theorem link_dry (g : Game) (sp : SPath) (w : World) :
    Game.link g sp true w = (.ok (), w) := by
  simp [Game.link, linkSaves_dry]

theorem restore_dry (g : Game) (sp : SPath) (w : World) :
    Game.restore g sp true w = (.ok (), w) := by
  simp [Game.restore, restoreSaves_dry]

theorem unlink_dry (g : Game) (sp : SPath) (w : World) :
    Game.unlink g sp true w = (.ok (), w) := by
  simp [Game.unlink, unlinkSaves_dry]

theorem runList_id
    (op : Game → SPath → Bool → World → Except LError Unit × World)
    (s : Settings) (h : ∀ g w, op g s.storagePath s.dryRun w = (.ok (), w)) :
    ∀ (l : List Game) (w : World), Game.runList op s l w = w := by
  intro l
  induction l with
  | nil => intro w; rfl
  | cons g rest ih =>
    intro w
    simp only [Game.runList]
    by_cases hg : s.gameIsIgnored g.id = true
    · simp [hg, ih]
    · simp [hg, h, ih]

/-- Claim C7: with the dry-run flag set, each of the three bulk operations
returns success and leaves the machine state — filesystem and all —
exactly as it was, for every database, storage path, ignore list and
world; in particular this holds even when the process lacks the
link-creation privilege (`canLink = false`), so the capability check is
skipped. -/
theorem dryRun_no_mutation (db : Database) (sp : SPath) (ign : List String)
    (w : World) :
    Game.linkAll db ⟨sp, true, ign⟩ w = (.ok (), w) ∧
    Game.restoreAll db ⟨sp, true, ign⟩ w = (.ok (), w) ∧
    Game.unlinkAll db ⟨sp, true, ign⟩ w = (.ok (), w) := by
  refine ⟨?_, ?_, ?_⟩
  · simp [Game.linkAll,
      runList_id Game.link ⟨sp, true, ign⟩ (fun g w => link_dry g sp w)]
  · simp [Game.restoreAll,
      runList_id Game.restore ⟨sp, true, ign⟩ (fun g w => restore_dry g sp w)]
  · simp [Game.unlinkAll,
      runList_id Game.unlink ⟨sp, true, ign⟩ (fun g w => unlink_dry g sp w)]

theorem runList_append
    (op : Game → SPath → Bool → World → Except LError Unit × World)
    (s : Settings) (l₁ l₂ : List Game) (w : World) :
    Game.runList op s (l₁ ++ l₂) w
      = Game.runList op s l₂ (Game.runList op s l₁ w) := by
  induction l₁ generalizing w with
  | nil => rfl
  | cons g rest ih =>
    simp only [List.cons_append, Game.runList]
    by_cases hg : s.gameIsIgnored g.id = true
    · simp [hg, ih]
    · simp [hg, ih]

/-- Claim C9: the three bulk operations always return overall success, and
the driving loop over selected entries composes over list concatenation:
whatever a prefix of entries does to the world (including per-entry
failures, whose outcome the loop discards), the loop still processes the
remaining entries from the resulting world. -/
theorem bulkOps_isolate_failures (db : Database) (s : Settings) (w : World)
    (op : Game → SPath → Bool → World → Except LError Unit × World)
    (l₁ l₂ : List Game) (w₀ : World) :
    (Game.linkAll db s w).1 = .ok () ∧
    (Game.restoreAll db s w).1 = .ok () ∧
    (Game.unlinkAll db s w).1 = .ok () ∧
    Game.runList op s (l₁ ++ l₂) w₀
      = Game.runList op s l₂ (Game.runList op s l₁ w₀) :=
  ⟨rfl, rfl, rfl, runList_append op s l₁ l₂ w₀⟩

/-- Claim C10: the selection used by `restore_all` and `unlink_all` never
contains an entry with an empty id — the emptiness filter runs before the
existence test on `storage_root/id` — and on a database whose entries all
have empty ids both bulk operations leave any world (in particular one
where the storage root itself exists) unchanged. -/
theorem emptyId_entries_never_selected (gs : List Game) (sp : SPath)
    (fs : FS) (db : Database) (s : Settings) (w : World) :
    (Game.allWithMovedSaves gs sp fs).all (fun g => !(g.id == "")) = true ∧
    ((∀ g ∈ db.games, g.id = "") →
      Game.restoreAll db s w = (.ok (), w) ∧
      Game.unlinkAll db s w = (.ok (), w)) := by
  constructor
  · rw [List.all_eq_true]
    intro g hg
    have hg1 := List.mem_filter.mp (List.mem_filter.mp hg).1
    exact hg1.2
  · intro h
    have hnil : Game.allWithMovedSaves db.games s.storagePath w.fs = [] := by
      unfold Game.allWithMovedSaves
      have : db.games.filter (fun g => !(g.id == "")) = [] := by
        rw [List.filter_eq_nil_iff]
        intro g hg
        simp [h g hg]
      rw [this]
      rfl
    constructor
    · simp [Game.restoreAll, hnil, Game.runList]
    · simp [Game.unlinkAll, hnil, Game.runList]

/-- Claim C10 witness: a database with a single empty-id entry, a world
where the storage root exists: `restore_all` and `unlink_all` do not touch
it. -/
theorem emptyId_entries_never_selected_witness :
    Game.restoreAll ⟨1, [⟨"T", "", false, []⟩]⟩
        ⟨⟨true, ["storage"]⟩, false, []⟩
        ⟨[(⟨true, ["storage"]⟩, .dir)], true⟩
      = (.ok (), ⟨[(⟨true, ["storage"]⟩, .dir)], true⟩) :=
  ((emptyId_entries_never_selected [] ⟨true, []⟩ [] _ _ _).2
    (by decide)).1

/-! ### Link-engine lemmas -/

theorem fsRemove_of_lookup_none (fs : FS) (p : SPath)
    (h : lookupFS fs p = none) : fsRemove fs p = fs := by
  induction fs with
  | nil => rfl
  | cons e fs ih =>
    simp only [lookupFS] at h
    by_cases he : e.1 = p
    · simp [he] at h
    · simp only [fsRemove, if_neg he]
      rw [ih (by simpa [he] using h)]

theorem resolveNode_mono (fs fs' : FS)
    (henv : ∀ q v, lookupFS fs q = some v → lookupFS fs' q = some v) :
    ∀ (n m : Nat) (p : SPath) (nd : Node), n ≤ m →
      resolveNode fs n p = some nd → resolveNode fs' m p = some nd := by
  intro n
  induction n with
  | zero => intro m p nd _ h; simp [resolveNode] at h
  | succ k ih =>
    intro m p nd hnm h
    obtain ⟨m', rfl⟩ : ∃ m', m = m' + 1 :=
      ⟨m - 1, by omega⟩
    simp only [resolveNode] at h ⊢
    cases hl : lookupFS fs p with
    | none => rw [hl] at h; exact absurd h (by simp)
    | some nd0 =>
      rw [hl] at h
      rw [henv p nd0 hl]
      cases nd0 with
      | symlink t => exact ih m' t nd (by omega) h
      | file d => exact h
      | dir => exact h

theorem pathExists_insert_of_none (fs : FS) (src tgt : SPath) (nd0 : Node)
    (hsrc : lookupFS fs src = none) (h : pathExists fs tgt = true) :
    pathExists ((src, nd0) :: fs) tgt = true := by
  have henv : ∀ q v, lookupFS fs q = some v →
      lookupFS ((src, nd0) :: fs) q = some v := by
    intro q v hq
    by_cases hqs : src = q
    · rw [hqs] at hsrc; rw [hsrc] at hq; exact absurd hq (by simp)
    · simpa [lookupFS, hqs] using hq
  simp only [pathExists, statFollow, Option.isSome_iff_exists] at h ⊢
  obtain ⟨nd, hnd⟩ := h
  exact ⟨nd, resolveNode_mono fs ((src, nd0) :: fs) henv
    (fs.length + 1) ((src, nd0) :: fs).length.succ tgt nd (by simp) hnd⟩

/-- Claim C4: `Linker::symlink` is idempotent — if a first call on
`(src, tgt)` succeeded, producing filesystem `fs1`, then a second call on
the same pair also succeeds and returns `fs1` unchanged (the source is
found to be a link already pointing at the target). -/
theorem symlink_idempotent (fs fs1 : FS) (src tgt : SPath)
    (h : Linker.symlink fs src tgt = .ok fs1) :
    Linker.symlink fs1 src tgt = .ok fs1 := by
  unfold Linker.symlink at h
  by_cases hex : pathExists fs tgt = false
  · rw [if_pos hex] at h; exact absurd h (by simp)
  · rw [if_neg hex] at h
    have hex' : pathExists fs tgt = true := by
      cases hb : pathExists fs tgt with
      | false => exact absurd hb hex
      | true => rfl
    cases hsrc : lookupFS fs src with
    | none =>
      have hos : Linker.osSymlink fs src tgt
          = .ok ((src, Node.symlink tgt) :: fs) := by
        unfold Linker.osSymlink
        rw [hsrc]
        simp [fsInsert, fsRemove_of_lookup_none fs src hsrc]
      rw [hos] at h
      simp only at h
      have hfs1 : fs1 = (src, Node.symlink tgt) :: fs := by
        cases h; rfl
      subst hfs1
      have hex1 : pathExists ((src, Node.symlink tgt) :: fs) tgt = true :=
        pathExists_insert_of_none fs src tgt _ hsrc hex'
      unfold Linker.symlink
      rw [if_neg (by simp [hex1])]
      have hl1 : lookupFS ((src, Node.symlink tgt) :: fs) src
          = some (.symlink tgt) := by simp [lookupFS]
      have hos1 : Linker.osSymlink ((src, Node.symlink tgt) :: fs) src tgt
          = .error (.io .alreadyExists) := by
        unfold Linker.osSymlink
        rw [hl1]
        simp
      rw [hos1, hl1]
      simp
    | some nd =>
      have hos : Linker.osSymlink fs src tgt = .error (.io .alreadyExists) := by
        unfold Linker.osSymlink
        rw [hsrc]
        simp
      rw [hos] at h
      simp only at h
      rw [hsrc] at h
      cases nd with
      | symlink target =>
        by_cases htt : target = tgt
        · subst htt
          simp only [if_true] at h
          have hfs1 : fs1 = fs := by cases h; rfl
          subst hfs1
          unfold Linker.symlink
          rw [if_neg hex, hos]
          simp only
          rw [hsrc]
          simp only [if_true]
        · simp only at h
          rw [if_neg htt] at h
          exact absurd h (by simp)
      | dir => exact absurd h (by simp)
      | file d => exact absurd h (by simp)

/-- Claim C4 witness: linking `/s` to the existing directory `/data`
succeeds, and the theorem applies to give the second, idempotent call. -/
theorem symlink_idempotent_witness :
    Linker.symlink
        [(⟨true, ["s"]⟩, Node.symlink ⟨true, ["data"]⟩),
         (⟨true, ["data"]⟩, Node.dir)]
        ⟨true, ["s"]⟩ ⟨true, ["data"]⟩
      = .ok [(⟨true, ["s"]⟩, Node.symlink ⟨true, ["data"]⟩),
             (⟨true, ["data"]⟩, Node.dir)] :=
  symlink_idempotent [(⟨true, ["data"]⟩, Node.dir)] _ _ _ (by decide)

theorem resolveNode_self_symlink (fs : FS) (p : SPath)
    (h : lookupFS fs p = some (.symlink p)) :
    ∀ n, resolveNode fs n p = none := by
  intro n
  induction n with
  | zero => rfl
  | succ k ih => simp only [resolveNode]; rw [h]; exact ih

/-- Claim C8 (amended): `move_and_link(p, p)` on an existing path `p`
always fails and leaves the filesystem unchanged; when `p` is a real
(non-link) file or directory the error is `DestinationExists p`, while a
symbolic link yields `AlreadyLinked` with its actual target. -/
theorem moveAndLink_self (fs : FS) (p : SPath) :
    (∀ nd, lookupFS fs p = some nd → isSymlinkNode nd = false →
      Linker.moveAndLink fs p p = (.error (.destinationExists p), fs)) ∧
    (pathExists fs p = true →
      (Linker.moveAndLink fs p p).2 = fs ∧
      ∃ e, (Linker.moveAndLink fs p p).1 = .error e) := by
  constructor
  · intro nd hnd hns
    have hex : pathExists fs p = true := by
      simp only [pathExists, statFollow, resolveNode]
      rw [hnd]
      cases nd with
      | symlink t => simp [isSymlinkNode] at hns
      | dir => simp
      | file d => simp
    have hrl : readLink fs p = none := by
      unfold readLink
      rw [hnd]
      cases nd with
      | symlink t => simp [isSymlinkNode] at hns
      | dir => rfl
      | file d => rfl
    unfold Linker.moveAndLink
    rw [if_neg (by simp [hex]), if_pos hex, hrl]
  · intro hex
    cases hnd : lookupFS fs p with
    | none =>
      exfalso
      simp only [pathExists, statFollow, resolveNode] at hex
      rw [hnd] at hex
      simp at hex
    | some nd =>
      cases nd with
      | symlink t =>
        have hrl : readLink fs p = some t := by unfold readLink; rw [hnd]
        have hpt : ¬ p = t := by
          intro hpt
          rw [← hpt] at hnd
          have hnone := resolveNode_self_symlink fs p hnd (fs.length + 1)
          simp only [pathExists, statFollow] at hex
          rw [hnone] at hex
          simp at hex
        unfold Linker.moveAndLink
        rw [if_neg (by simp [hex]), if_pos hex, hrl]
        simp only
        rw [if_neg hpt]
        exact ⟨rfl, _, rfl⟩
      | dir =>
        have hrl : readLink fs p = none := by unfold readLink; rw [hnd]
        unfold Linker.moveAndLink
        rw [if_neg (by simp [hex]), if_pos hex, hrl]
        exact ⟨rfl, _, rfl⟩
      | file d =>
        have hrl : readLink fs p = none := by unfold readLink; rw [hnd]
        unfold Linker.moveAndLink
        rw [if_neg (by simp [hex]), if_pos hex, hrl]
        exact ⟨rfl, _, rfl⟩

/-- Claim C8 witness: on a real directory at `/p`, self-relocation fails
with `DestinationExists` and the filesystem is unchanged. -/
theorem moveAndLink_self_witness :
    Linker.moveAndLink [(⟨true, ["p"]⟩, Node.dir)] ⟨true, ["p"]⟩
        ⟨true, ["p"]⟩
      = (.error (.destinationExists ⟨true, ["p"]⟩),
         [(⟨true, ["p"]⟩, Node.dir)]) :=
  (moveAndLink_self [(⟨true, ["p"]⟩, Node.dir)] ⟨true, ["p"]⟩).1
    Node.dir (by decide) (by decide)

/-! ### Order theory for the embedded string comparison -/

theorem charsLt_irrefl : ∀ l, charsLt l l = false := by
  intro l
  induction l with
  | nil => rfl
  | cons c cs ih => simp [charsLt, ih]

theorem charsLt_trans : ∀ a b c, charsLt a b = true → charsLt b c = true →
    charsLt a c = true := by
  intro a
  induction a with
  | nil =>
    intro b c h1 h2
    cases b with
    | nil => simp [charsLt] at h1
    | cons y ys =>
      cases c with
      | nil => simp [charsLt] at h2
      | cons z zs => simp [charsLt]
  | cons x xs ih =>
    intro b c h1 h2
    cases b with
    | nil => simp [charsLt] at h1
    | cons y ys =>
      cases c with
      | nil => simp [charsLt] at h2
      | cons z zs =>
        simp only [charsLt] at h1 h2 ⊢
        rcases Nat.lt_trichotomy x.toNat y.toNat with hxy | hxy | hxy <;>
          rcases Nat.lt_trichotomy y.toNat z.toNat with hyz | hyz | hyz
        · rw [if_pos (by omega)]
        · rw [if_pos (by omega)]
        · rw [if_neg (by omega), if_pos (by omega)] at h2
          exact absurd h2 (by simp)
        · rw [if_pos (by omega)]
        · rw [if_neg (by omega), if_neg (by omega)] at h1 h2 ⊢
          exact ih ys zs h1 h2
        · rw [if_neg (by omega), if_pos (by omega)] at h2
          exact absurd h2 (by simp)
        · rw [if_neg (by omega), if_pos (by omega)] at h1
          exact absurd h1 (by simp)
        · rw [if_neg (by omega), if_pos (by omega)] at h1
          exact absurd h1 (by simp)
        · rw [if_neg (by omega), if_pos (by omega)] at h1
          exact absurd h1 (by simp)

theorem charsLt_conn : ∀ a b, charsLt a b = false → charsLt b a = false →
    a = b := by
  intro a
  induction a with
  | nil =>
    intro b h1 _
    cases b with
    | nil => rfl
    | cons y ys => simp [charsLt] at h1
  | cons x xs ih =>
    intro b h1 h2
    cases b with
    | nil => simp [charsLt] at h2
    | cons y ys =>
      simp only [charsLt] at h1 h2
      rcases Nat.lt_trichotomy x.toNat y.toNat with hxy | hxy | hxy
      · rw [if_pos (by omega)] at h1
        exact absurd h1 (by simp)
      · rw [if_neg (by omega), if_neg (by omega)] at h1 h2
        have hx : x = y := by
          rw [← Char.ofNat_toNat x, ← Char.ofNat_toNat y, hxy]
        rw [hx, ih ys h1 h2]
      · rw [if_pos (by omega)] at h2
        exact absurd h2 (by simp)

theorem strLt_irrefl (a : String) : strLt a a = false := charsLt_irrefl a.data

theorem strLt_trans (a b c : String) (h1 : strLt a b = true)
    (h2 : strLt b c = true) : strLt a c = true :=
  charsLt_trans a.data b.data c.data h1 h2

theorem strLt_conn (a b : String) (h1 : strLt a b = false)
    (h2 : strLt b a = false) : a = b :=
  String.ext (charsLt_conn a.data b.data h1 h2)

theorem strLt_false_of_eq {a b : String} (h : a = b) : strLt a b = false := by
  rw [h]; exact strLt_irrefl b

/-! ### The Game order as a lexicographic key -/

/-- Custom entries rank before non-custom ones among equal ids. -/
def custRank (g : Game) : Nat := if g.custom then 0 else 1

theorem gameLe_iff (a b : Game) : gameLe a b ↔
    strLt a.id b.id = true ∨
    (a.id = b.id ∧ (custRank a < custRank b ∨
      (custRank a = custRank b ∧
        (strLt a.title b.title = true ∨ a.title = b.title)))) := by
  unfold gameLe Game.cmp
  split_ifs with h1 h2 h3 h4 h5 h6
  · simp [h1]
  · have hna : ¬ a.id = b.id := by
      intro he
      rw [he] at h2
      rw [strLt_irrefl] at h2
      exact absurd h2 (by simp)
    constructor
    · intro h; exact absurd rfl h
    · rintro (hA | ⟨hB, _⟩)
      · exact absurd hA h1
      · exact absurd hB hna
  · have hid : a.id = b.id := by
      refine strLt_conn _ _ ?_ ?_ <;> revert h1 h2
      · cases strLt a.id b.id <;> simp
      · intro _; cases strLt b.id a.id <;> simp
    have ha : a.custom = true := by revert h3; cases a.custom <;> simp
    have hb : b.custom = false := by revert h3; cases b.custom <;> simp
    simp [hid, custRank, ha, hb]
  · have hc : (custRank a < custRank b ∨
        (custRank a = custRank b ∧
          (strLt a.title b.title = true ∨ a.title = b.title))) → False := by
      have ha : a.custom = false := by revert h4; cases a.custom <;> simp
      have hb : b.custom = true := by revert h4; cases b.custom <;> simp
      rintro (hr | ⟨hr, _⟩) <;> simp [custRank, ha, hb] at hr
    constructor
    · intro h; exact absurd rfl h
    · rintro (hA | ⟨_, hB⟩)
      · exact absurd hA h1
      · exact absurd hB hc
  all_goals
    have hid : a.id = b.id := by
      refine strLt_conn _ _ ?_ ?_ <;> revert h1 h2
      · cases strLt a.id b.id <;> simp
      · intro _; cases strLt b.id a.id <;> simp
  all_goals
    have hcc : a.custom = b.custom := by
      revert h3 h4; cases a.custom <;> cases b.custom <;> simp
  · simp [hid, custRank, hcc, h5]
  · have hnt : ¬ a.title = b.title := by
      intro he
      rw [he] at h6
      rw [strLt_irrefl] at h6
      exact absurd h6 (by simp)
    constructor
    · intro h; exact absurd rfl h
    · rintro (hA | ⟨_, hB | ⟨_, hC | hC⟩⟩)
      · exact absurd hA h1
      · simp [custRank, hcc] at hB
      · exact absurd hC h5
      · exact absurd hC hnt
  · have hts : a.title = b.title := by
      refine strLt_conn _ _ ?_ ?_ <;> revert h5 h6
      · cases strLt a.title b.title <;> simp
      · intro _; cases strLt b.title a.title <;> simp
    simp [hid, custRank, hcc, hts]

theorem gameLe_total (a b : Game) : gameLe a b ∨ gameLe b a := by
  cases hab : strLt a.id b.id with
  | true => exact Or.inl ((gameLe_iff a b).mpr (Or.inl hab))
  | false =>
    cases hba : strLt b.id a.id with
    | true => exact Or.inr ((gameLe_iff b a).mpr (Or.inl hba))
    | false =>
      have hid : a.id = b.id := strLt_conn _ _ hab hba
      rcases Nat.lt_trichotomy (custRank a) (custRank b) with hr | hr | hr
      · exact Or.inl ((gameLe_iff a b).mpr (Or.inr ⟨hid, Or.inl hr⟩))
      · cases hat : strLt a.title b.title with
        | true =>
          exact Or.inl ((gameLe_iff a b).mpr
            (Or.inr ⟨hid, Or.inr ⟨hr, Or.inl hat⟩⟩))
        | false =>
          cases hbt : strLt b.title a.title with
          | true =>
            exact Or.inr ((gameLe_iff b a).mpr
              (Or.inr ⟨hid.symm, Or.inr ⟨hr.symm, Or.inl hbt⟩⟩))
          | false =>
            exact Or.inl ((gameLe_iff a b).mpr
              (Or.inr ⟨hid, Or.inr ⟨hr, Or.inr (strLt_conn _ _ hat hbt)⟩⟩))
      · exact Or.inr ((gameLe_iff b a).mpr (Or.inr ⟨hid.symm, Or.inl hr⟩))

theorem gameLe_trans (a b c : Game) (h1 : gameLe a b) (h2 : gameLe b c) :
    gameLe a c := by
  rw [gameLe_iff] at h1 h2 ⊢
  rcases h1 with h1 | ⟨hid1, h1⟩
  · rcases h2 with h2 | ⟨hid2, _⟩
    · exact Or.inl (strLt_trans _ _ _ h1 h2)
    · exact Or.inl (hid2 ▸ h1)
  · rcases h2 with h2 | ⟨hid2, h2⟩
    · exact Or.inl (hid1 ▸ h2)
    · refine Or.inr ⟨hid1.trans hid2, ?_⟩
      rcases h1 with h1 | ⟨hr1, ht1⟩
      · rcases h2 with h2 | ⟨hr2, _⟩
        · exact Or.inl (lt_trans h1 h2)
        · exact Or.inl (hr2 ▸ h1)
      · rcases h2 with h2 | ⟨hr2, ht2⟩
        · exact Or.inl (hr1 ▸ h2)
        · refine Or.inr ⟨hr1.trans hr2, ?_⟩
          rcases ht1 with ht1 | ht1
          · rcases ht2 with ht2 | ht2
            · exact Or.inl (strLt_trans _ _ _ ht1 ht2)
            · exact Or.inl (ht2 ▸ ht1)
          · rcases ht2 with ht2 | ht2
            · exact Or.inl (ht1 ▸ ht2)
            · exact Or.inr (ht1.trans ht2)

instance : IsTotal Game gameLe := ⟨gameLe_total⟩

instance : IsTrans Game gameLe := ⟨gameLe_trans⟩

theorem sorted_sortGames (gs : List Game) :
    List.Sorted gameLe (sortGames gs) :=
  List.sorted_insertionSort gameLe gs

theorem gameLe_id_lt (a b : Game) (h : gameLe a b) (hne : ¬ a.id = b.id) :
    strLt a.id b.id = true := by
  rcases (gameLe_iff a b).mp h with h | ⟨hid, _⟩
  · exact h
  · exact absurd hid hne

theorem chain_dedupFrom : ∀ (l : List Game) (x : Game),
    List.Sorted gameLe (x :: l) →
    List.Chain' (fun a b => strLt a.id b.id = true) (x :: dedupFrom x l) := by
  intro l
  induction l with
  | nil => intro x _; simp [dedupFrom]
  | cons y r ih =>
    intro x hs
    rw [List.sorted_cons] at hs
    obtain ⟨hx, hyr⟩ := hs
    unfold dedupFrom
    by_cases hxy : x.id = y.id
    · rw [if_pos hxy]
      apply ih x
      rw [List.sorted_cons] at hyr ⊢
      exact ⟨fun b hb => hx b (List.mem_cons_of_mem y hb), hyr.2⟩
    · rw [if_neg hxy]
      refine List.chain'_cons.mpr ⟨?_, ih y hyr⟩
      exact gameLe_id_lt x y (hx y (List.mem_cons_self y r)) hxy

theorem chain_dedupSort (gs : List Game) :
    List.Chain' (fun a b => strLt a.id b.id = true)
      (dedupGames (sortGames gs)) := by
  cases h : sortGames gs with
  | nil => simp [dedupGames]
  | cons x l =>
    have hs : List.Sorted gameLe (x :: l) := h ▸ sorted_sortGames gs
    exact chain_dedupFrom l x hs

/-! ### Expansion preserves identity, order and errors -/

theorem expand_fields (env : String → Option String) (g g' : Game)
    (h : Game.expand env g = .ok g') :
    g'.id = g.id ∧ g'.custom = g.custom ∧ g'.title = g.title := by
  unfold Game.expand at h
  cases hm : mapMExcept (SavePath.updatePath env) g.saves with
  | error e => rw [hm] at h; exact absurd h (by simp)
  | ok saves =>
    rw [hm] at h
    simp only [Except.ok.injEq] at h
    rw [← h]
    exact ⟨rfl, rfl, rfl⟩

theorem mapMExcept_chain (env : String → Option String) :
    ∀ (l l' : List Game),
      mapMExcept (Game.expand env) l = .ok l' →
      List.Chain' (fun a b => strLt a.id b.id = true) l →
      List.Chain' (fun a b => strLt a.id b.id = true) l' := by
  intro l
  induction l with
  | nil =>
    intro l' h _
    simp only [mapMExcept, Except.ok.injEq] at h
    rw [← h]
    simp
  | cons g rest ih =>
    intro l' h hc
    simp only [mapMExcept] at h
    cases hg : Game.expand env g with
    | error e => rw [hg] at h; exact absurd h (by simp)
    | ok g' =>
      rw [hg] at h
      cases hr : mapMExcept (Game.expand env) rest with
      | error e => rw [hr] at h; exact absurd h (by simp)
      | ok rest' =>
        rw [hr] at h
        simp only [Except.ok.injEq] at h
        rw [← h]
        have hctail : List.Chain' (fun a b => strLt a.id b.id = true) rest' :=
          ih rest' hr hc.tail
        cases rest with
        | nil =>
          simp only [mapMExcept, Except.ok.injEq] at hr
          rw [← hr]
          simp
        | cons g2 rest2 =>
          simp only [mapMExcept] at hr
          cases hg2 : Game.expand env g2 with
          | error e => rw [hg2] at hr; exact absurd hr (by simp)
          | ok g2' =>
            rw [hg2] at hr
            cases hr2 : mapMExcept (Game.expand env) rest2 with
            | error e => rw [hr2] at hr; exact absurd hr (by simp)
            | ok rest2' =>
              rw [hr2] at hr
              simp only [Except.ok.injEq] at hr
              have hrel : strLt g.id g2.id = true :=
                (List.chain'_cons.mp hc).1
              have hid1 := (expand_fields env g g' hg).1
              have hid2 := (expand_fields env g2 g2' hg2).1
              rw [← hr]
              rw [← hr] at hctail
              refine List.Chain'.cons ?_ hctail
              rw [hid1, hid2]
              exact hrel

/-- Claim C2: merging prefers custom entries, and the loaded list is
id-sorted and id-deduplicated.  For two entries sharing an id with exactly
one custom, loading them in either order yields exactly the (expanded)
custom entry; and in general every successfully loaded database has its
entries in strictly increasing id order — which is precisely "sorted by id
ascending and deduplicated by id" (the stable sort places custom before
non-custom among equal ids, so dedup keeps the custom one). -/
theorem databaseLoad_custom_preferred (v : Nat) (g₁ g₂ g₁' : Game)
    (env : String → Option String) (hv : v ≤ dbVERSION)
    (hid : g₁.id = g₂.id) (h₁ : g₁.custom = true) (h₂ : g₂.custom = false)
    (hexp : Game.expand env g₁ = .ok g₁') :
    Database.load v [g₁, g₂] env = .ok ⟨v, [g₁']⟩ ∧
    Database.load v [g₂, g₁] env = .ok ⟨v, [g₁']⟩ ∧
    g₁'.id = g₁.id ∧ g₁'.custom = true ∧
    (∀ (v' : Nat) (gs : List Game) (env' : String → Option String)
        (db : Database), Database.load v' gs env' = .ok db →
      List.Chain' (fun a b => strLt a.id b.id = true) db.games) := by
  have hlt12 : Game.cmp g₁ g₂ = .lt := by
    unfold Game.cmp
    rw [hid]
    simp [strLt_irrefl, h₁, h₂]
  have hgt21 : Game.cmp g₂ g₁ = .gt := by
    unfold Game.cmp
    rw [hid]
    simp [strLt_irrefl, h₁, h₂]
  have hle12 : gameLe g₁ g₂ := by unfold gameLe; rw [hlt12]; simp
  have hnle21 : ¬ gameLe g₂ g₁ := by unfold gameLe; rw [hgt21]; simp
  have hsort12 : sortGames [g₁, g₂] = [g₁, g₂] := by
    unfold sortGames
    simp only [List.insertionSort, List.orderedInsert]
    rw [if_pos hle12]
  have hsort21 : sortGames [g₂, g₁] = [g₁, g₂] := by
    unfold sortGames
    simp only [List.insertionSort, List.orderedInsert]
    rw [if_neg hnle21]
  have hded : dedupGames [g₁, g₂] = [g₁] := by
    simp [dedupGames, dedupFrom, hid]
  have hmap : mapMExcept (Game.expand env) [g₁] = .ok [g₁'] := by
    simp [mapMExcept, hexp]
  have hfields := expand_fields env g₁ g₁' hexp
  refine ⟨?_, ?_, hfields.1, by rw [hfields.2.1, h₁], ?_⟩
  · unfold Database.load
    rw [if_neg (by omega), hsort12, hded, hmap]
  · unfold Database.load
    rw [if_neg (by omega), hsort21, hded, hmap]
  · intro v' gs env' db hdb
    unfold Database.load at hdb
    by_cases hv' : v' > dbVERSION
    · rw [if_pos hv'] at hdb
      exact absurd hdb (by simp)
    · rw [if_neg hv'] at hdb
      cases hm : mapMExcept (Game.expand env') (dedupGames (sortGames gs)) with
      | error e => rw [hm] at hdb; exact absurd hdb (by simp)
      | ok l' =>
        rw [hm] at hdb
        simp only [Except.ok.injEq] at hdb
        have hchain := mapMExcept_chain env' _ l' hm (chain_dedupSort gs)
        rw [← hdb]
        exact hchain

/-- Claim C2 witness: a custom and a bundled entry sharing id `a`; the
load keeps exactly the custom one. -/
theorem databaseLoad_custom_preferred_witness :
    Database.load 1 [⟨"T", "a", true, []⟩, ⟨"U", "a", false, []⟩]
        (fun _ => none)
      = .ok ⟨1, [⟨"T", "a", true, []⟩]⟩ :=
  (databaseLoad_custom_preferred 1 ⟨"T", "a", true, []⟩ ⟨"U", "a", false, []⟩
    ⟨"T", "a", true, []⟩ (fun _ => none) (by decide) rfl rfl rfl
    (by decide)).1

/-! ### Error shapes of the load pipeline -/

theorem setPath_error (env : String → Option String) (sp : SavePath)
    (p : String) (e : LError) (h : SavePath.setPath env sp p = .error e) :
    ∃ s, e = .relativePath s := by
  simp only [SavePath.setPath] at h
  split at h
  · injection h with h'
    exact ⟨_, h'.symm⟩
  · exact absurd h (by simp)

theorem mapMExcept_error {α β : Type} (f : α → Except LError β) :
    ∀ (l : List α) (e : LError), mapMExcept f l = .error e →
      ∃ a, a ∈ l ∧ f a = .error e := by
  intro l
  induction l with
  | nil => intro e h; simp [mapMExcept] at h
  | cons a as ih =>
    intro e h
    simp only [mapMExcept] at h
    cases hf : f a with
    | error e0 =>
      rw [hf] at h
      injection h with h'
      exact ⟨a, List.mem_cons_self a as, h' ▸ hf⟩
    | ok b =>
      rw [hf] at h
      cases hm : mapMExcept f as with
      | error e0 =>
        rw [hm] at h
        injection h with h'
        obtain ⟨x, hx, hfx⟩ := ih e0 hm
        exact ⟨x, List.mem_cons_of_mem a hx, h' ▸ hfx⟩
      | ok bs => rw [hm] at h; exact absurd h (by simp)

theorem expand_error (env : String → Option String) (g : Game) (e : LError)
    (h : Game.expand env g = .error e) : ∃ s, e = .relativePath s := by
  unfold Game.expand at h
  cases hm : mapMExcept (SavePath.updatePath env) g.saves with
  | error e0 =>
    rw [hm] at h
    injection h with h'
    obtain ⟨sp, _, hsp⟩ := mapMExcept_error _ _ e0 hm
    obtain ⟨s, hs⟩ := setPath_error env sp sp.path e0 hsp
    exact ⟨s, h' ▸ hs⟩
  | ok saves => rw [hm] at h; exact absurd h (by simp)

theorem mapMExcept_ok_of_all {α β : Type} (f : α → Except LError β) :
    ∀ (l : List α), (∀ a ∈ l, ∃ b, f a = .ok b) →
      ∃ l', mapMExcept f l = .ok l' := by
  intro l
  induction l with
  | nil => intro _; exact ⟨[], rfl⟩
  | cons a as ih =>
    intro h
    obtain ⟨b, hb⟩ := h a (List.mem_cons_self a as)
    obtain ⟨bs, hbs⟩ := ih (fun x hx => h x (List.mem_cons_of_mem a hx))
    exact ⟨b :: bs, by simp [mapMExcept, hb, hbs]⟩

theorem dedupFrom_subset : ∀ (l : List Game) (x g : Game),
    g ∈ dedupFrom x l → g ∈ l := by
  intro l
  induction l with
  | nil => intro x g h; simp [dedupFrom] at h
  | cons y r ih =>
    intro x g h
    unfold dedupFrom at h
    by_cases hxy : x.id = y.id
    · rw [if_pos hxy] at h
      exact List.mem_cons_of_mem y (ih x g h)
    · rw [if_neg hxy] at h
      rcases List.mem_cons.mp h with h | h
      · exact h ▸ List.mem_cons_self y r
      · exact List.mem_cons_of_mem y (ih y g h)

theorem dedupSort_subset (gs : List Game) (g : Game)
    (h : g ∈ dedupGames (sortGames gs)) : g ∈ gs := by
  have hmem : g ∈ sortGames gs := by
    cases hs : sortGames gs with
    | nil => rw [hs] at h; simp [dedupGames] at h
    | cons x l =>
      rw [hs] at h
      unfold dedupGames at h
      rcases List.mem_cons.mp h with h | h
      · rw [h]; exact List.mem_cons_self x l
      · exact List.mem_cons_of_mem x (dedupFrom_subset l x g h)
  unfold sortGames at hmem
  exact (List.perm_insertionSort gameLe gs).mem_iff.mp hmem

/-- Claim C3 (amended): load fails with `DatabaseTooNew` exactly when the
document version exceeds the supported version; at a supported version,
any load failure is a relative-path validation error, and load succeeds
whenever every entry's save templates expand to absolute paths. -/
theorem databaseLoad_version_gate (v : Nat) (gs : List Game)
    (env : String → Option String) :
    (v > dbVERSION ↔
      Database.load v gs env = .error (.databaseTooNew v dbVERSION)) ∧
    (v ≤ dbVERSION → ∀ e, Database.load v gs env = .error e →
      ∃ s, e = .relativePath s) ∧
    (v ≤ dbVERSION → (∀ g ∈ gs, ∃ g', Game.expand env g = .ok g') →
      ∃ db, Database.load v gs env = .ok db) := by
  have herr : ∀ e, Database.load v gs env = .error e → ¬ v > dbVERSION →
      ∃ s, e = .relativePath s := by
    intro e h hv
    unfold Database.load at h
    rw [if_neg hv] at h
    cases hm : mapMExcept (Game.expand env) (dedupGames (sortGames gs)) with
    | error e0 =>
      rw [hm] at h
      injection h with h'
      obtain ⟨g, _, hg⟩ := mapMExcept_error _ _ e0 hm
      obtain ⟨s, hs⟩ := expand_error env g e0 hg
      exact ⟨s, h' ▸ hs⟩
    | ok l' => rw [hm] at h; exact absurd h (by simp)
  refine ⟨⟨?_, ?_⟩, ?_, ?_⟩
  · intro hv
    unfold Database.load
    rw [if_pos hv]
  · intro h
    by_contra hv
    obtain ⟨s, hs⟩ := herr _ h hv
    simp at hs
  · intro hv e h
    exact herr e h (by omega)
  · intro hv hall
    unfold Database.load
    rw [if_neg (by omega)]
    have hall2 : ∀ g ∈ dedupGames (sortGames gs),
        ∃ g', Game.expand env g = .ok g' :=
      fun g hg => hall g (dedupSort_subset gs g hg)
    obtain ⟨l', hl'⟩ := mapMExcept_ok_of_all _ _ hall2
    rw [hl']
    exact ⟨_, rfl⟩

/-- Claim C3 witness: version 2 against supported version 1 fails with the
too-new error. -/
theorem databaseLoad_version_gate_witness :
    Database.load 2 [] (fun _ => none) = .error (.databaseTooNew 2 1) :=
  (databaseLoad_version_gate 2 [] (fun _ => none)).1.mp (by decide)
